import Mathlib

/-!
Weabot mood-tracking storage engine: a shallow embedding.

This file embeds the storage service of the repository
(`src/services/storage.ts`, `createStorageService`) in Lean 4 and proves
the specification's claims about it.

Modelling conventions:

* Deno KV is modelled as two association lists, one per key family used by
  the code: `["votes", date, userId] → VoteRecord` and
  `["user_votes", userId, date] → VoteRecord`.  `kv.set` is association-list
  update (`kvSet`): it replaces the value at an existing key and otherwise
  appends, so each key holds at most one value, exactly as in Deno KV.
* Calendar dates are modelled as natural day ordinals.  The code stores ISO
  `YYYY-MM-DD` strings and compares them with `localeCompare`; the spec notes
  that lexicographic comparison of such strings coincides with chronological
  order, so `Nat` with `≤` is a faithful image of the date domain.  The
  `while (current <= end)` day-enumeration loop of `getStats` becomes
  `List.range' startDate (endDate + 1 - startDate)`.
* JavaScript `Map` preserves insertion order; the stats map is therefore an
  association list built in day order and updated in place (`statsUpdate`).
* `Array.prototype.sort` with the date comparators is modelled by
  `List.insertionSort` with the corresponding relation.
* A JavaScript `Set` of user ids is modelled by first-occurrence
  deduplication (`setInsert` folded over the index entries).
-/

/-- The three mood states (`src/types/bot.ts`: `type Mood`). -/
inductive Mood : Type
  | umazing : Mood
  | ok : Mood
  | glue : Mood
deriving DecidableEq, Repr

/-- A single vote record (`src/types/storage.ts`: `interface VoteRecord`).
Field names follow the source; `date` is a day ordinal (see header). -/
structure VoteRecord : Type where
  odUserId : String
  odUserName : String
  mood : Mood
  date : Nat
  timestamp : Nat
deriving DecidableEq, Repr

/-- Aggregated stats for a single day
(`src/types/storage.ts`: `interface DailyStats`). -/
structure DailyStats : Type where
  date : Nat
  umazing : Nat
  ok : Nat
  glue : Nat
  total : Nat
deriving DecidableEq, Repr

/-- The Deno KV store as used by the storage service: the `"votes"` index is
keyed by `(date, userId)`, the `"user_votes"` index by `(userId, date)`. -/
structure Kv : Type where
  votes : List ((Nat × String) × VoteRecord)
  userVotes : List ((String × Nat) × VoteRecord)
deriving DecidableEq, Repr

/-- The empty store (a fresh `Deno.openKv`). -/
def Kv.empty : Kv := ⟨[], []⟩

/-- `kv.set key value`: replace the value at `key` if present, else append. -/
def kvSet {κ α : Type} [DecidableEq κ] (k : κ) (v : α) :
    List (κ × α) → List (κ × α)
  | [] => [(k, v)]
  | (k', v') :: rest =>
      if k = k' then (k, v) :: rest else (k', v') :: kvSet k v rest

/-- `kv.get key`: the value stored at `key`, if any. -/
def kvLookup {κ α : Type} [DecidableEq κ] (k : κ) :
    List (κ × α) → Option α
  | [] => none
  | (k', v') :: rest => if k = k' then some v' else kvLookup k rest

/-- `recordVote` (`storage.ts` lines 42–56): build the record and store it
under both indexes.  `now` is the ambient `Date.now()` value. -/
def recordVote (userId userName : String) (mood : Mood) (date : Nat)
    (now : Nat) (kv : Kv) : Kv :=
  let record : VoteRecord :=
    { odUserId := userId, odUserName := userName, mood := mood,
      date := date, timestamp := now }
  { votes := kvSet (date, userId) record kv.votes
    userVotes := kvSet (userId, date) record kv.userVotes }

/-- Date-descending comparison used by `getUserHistory`'s
`records.sort((a, b) => b.date.localeCompare(a.date))`. -/
def dateDesc (a b : VoteRecord) : Prop := b.date ≤ a.date

instance : DecidableRel dateDesc := fun a b => Nat.decLe b.date a.date

instance : IsTotal VoteRecord dateDesc :=
  ⟨fun a b => Nat.le_total b.date a.date⟩

instance : IsTrans VoteRecord dateDesc :=
  ⟨fun _ _ _ h1 h2 => Nat.le_trans h2 h1⟩

/-- The `user_votes` entries of one user, in index order
(the `kv.list({prefix: ["user_votes", userId]})` loop of `getUserHistory`). -/
def userRecords (kv : Kv) (userId : String) : List VoteRecord :=
  (kv.userVotes.filter (fun e => e.1.1 == userId)).map (·.2)

/-- `getUserHistory` (`storage.ts` lines 58–72): all of the user's records,
sorted by date descending, truncated to `limit` entries. -/
def getUserHistory (kv : Kv) (userId : String) (limit : Nat) :
    List VoteRecord :=
  ((userRecords kv userId).insertionSort dateDesc).take limit

/-- `getUserHistory` with the limit omitted: the TypeScript signature
defaults it to 30 (`getUserHistory(userId, limit = 30)`). -/
def getUserHistoryDefault (kv : Kv) (userId : String) : List VoteRecord :=
  getUserHistory kv userId 30

/-- `getVotesForDate` (`storage.ts` lines 74–85): every record stored under
the `["votes", date]` prefix. -/
def getVotesForDate (kv : Kv) (date : Nat) : List VoteRecord :=
  (kv.votes.filter (fun e => e.1.1 == date)).map (·.2)

/-- `stats[record.mood]++; stats.total++` of `getStats`. -/
def bumpStats (m : Mood) (s : DailyStats) : DailyStats :=
  match m with
  | Mood.umazing => { s with umazing := s.umazing + 1, total := s.total + 1 }
  | Mood.ok => { s with ok := s.ok + 1, total := s.total + 1 }
  | Mood.glue => { s with glue := s.glue + 1, total := s.total + 1 }

/-- `statsMap.get(record.date)` followed by the guarded in-place mutation:
update the entry at key `d` if present, otherwise do nothing. -/
def statsUpdate (d : Nat) (m : Mood) :
    List (Nat × DailyStats) → List (Nat × DailyStats)
  | [] => []
  | (k, s) :: rest =>
      if k = d then (k, bumpStats m s) :: rest
      else (k, s) :: statsUpdate d m rest

/-- Date-ascending comparison used by `getStats`'s final
`sort((a, b) => a.date.localeCompare(b.date))`. -/
def dateAsc (a b : DailyStats) : Prop := a.date ≤ b.date

instance : DecidableRel dateAsc := fun a b => Nat.decLe a.date b.date

instance : IsTotal DailyStats dateAsc :=
  ⟨fun a b => Nat.le_total a.date b.date⟩

instance : IsTrans DailyStats dateAsc :=
  ⟨fun _ _ _ h1 h2 => Nat.le_trans h1 h2⟩

/-- One step of the vote-aggregation loop of `getStats`: records outside
`[startDate, endDate]` are skipped, others bump their day's entry. -/
def statsStep (startDate endDate : Nat) (sm : List (Nat × DailyStats))
    (e : (Nat × String) × VoteRecord) : List (Nat × DailyStats) :=
  if startDate ≤ e.2.date ∧ e.2.date ≤ endDate then
    statsUpdate e.2.date e.2.mood sm
  else sm

/-- The zero-filled stats map for the inclusive day range
(the `while (current <= end)` initialisation loop of `getStats`). -/
def initStats (startDate endDate : Nat) : List (Nat × DailyStats) :=
  (List.range' startDate (endDate + 1 - startDate)).map
    (fun d => (d, { date := d, umazing := 0, ok := 0, glue := 0, total := 0 }))

/-- `getStats` (`storage.ts` lines 87–121): zero-fill the range, aggregate
all stored votes whose date falls in the range, return the per-day entries
sorted ascending by date. -/
def getStats (kv : Kv) (startDate endDate : Nat) : List DailyStats :=
  let filled := kv.votes.foldl (statsStep startDate endDate)
    (initStats startDate endDate)
  (filled.map (·.2)).insertionSort dateAsc

/-- The counting loop of `getConsecutiveGlueCount`: count leading records
with `mood === "glue"`, stopping at the first non-glue record. -/
def countLeadingGlue : List VoteRecord → Nat
  | [] => 0
  | r :: rest =>
      if r.mood = Mood.glue then countLeadingGlue rest + 1 else 0

/-- `getConsecutiveGlueCount` (`storage.ts` lines 123–136): walk
`getUserHistory(userId, 30)` counting leading glue votes. -/
def getConsecutiveGlueCount (kv : Kv) (userId : String) : Nat :=
  countLeadingGlue (getUserHistory kv userId 30)

/-- One `Set.add`: JavaScript `Set` keeps the first occurrence. -/
def setInsert (x : String) (s : List String) : List String :=
  if x ∈ s then s else s ++ [x]

/-- The distinct user ids observed in the `user_votes` index
(the `userIds` Set of `getUsersAtRisk`). -/
def kvUserIds (kv : Kv) : List String :=
  kv.userVotes.foldl (fun s e => setInsert e.2.odUserId s) []

/-- `getUsersAtRisk` (`storage.ts` lines 138–158): for every known user
whose consecutive glue count reaches `threshold`, include
`getUserHistory(userId, threshold)`. -/
def getUsersAtRisk (kv : Kv) (threshold : Nat) : List (List VoteRecord) :=
  ((kvUserIds kv).filter
      (fun u => threshold ≤ getConsecutiveGlueCount kv u)).map
    (fun u => getUserHistory kv u threshold)

/-- One `recordVote` call's arguments (`now` is the ambient clock value). -/
structure VoteOp : Type where
  userId : String
  userName : String
  mood : Mood
  date : Nat
  now : Nat
deriving DecidableEq, Repr

/-- Run a sequence of `recordVote` calls against a fresh store. -/
def runVotes (ops : List VoteOp) : Kv :=
  ops.foldl
    (fun kv op => recordVote op.userId op.userName op.mood op.date op.now kv)
    Kv.empty

example :
    getVotesForDate
      (runVotes [⟨"user123", "Alice", Mood.umazing, 10, 0⟩,
                 ⟨"user123", "Alice", Mood.glue, 10, 1⟩]) 10
      = [⟨"user123", "Alice", Mood.glue, 10, 1⟩] := by decide

example :
    getConsecutiveGlueCount
      (runVotes [⟨"u", "A", Mood.umazing, 5, 0⟩, ⟨"u", "A", Mood.glue, 6, 1⟩,
                 ⟨"u", "A", Mood.glue, 7, 2⟩, ⟨"u", "A", Mood.glue, 8, 3⟩])
      "u" = 3 := by decide

example :
    (getStats (runVotes [⟨"u1", "A", Mood.umazing, 10, 0⟩,
        ⟨"u2", "B", Mood.umazing, 10, 0⟩, ⟨"u3", "C", Mood.ok, 10, 0⟩,
        ⟨"u4", "D", Mood.glue, 10, 0⟩]) 10 10)
      = [⟨10, 2, 1, 1, 4⟩] := by decide

example : (getStats Kv.empty 3 5).map (·.date) = [3, 4, 5] := by decide

example : getStats Kv.empty 5 3 = [] := by decide

example :
    getUsersAtRisk
      (runVotes [⟨"u", "A", Mood.glue, 5, 0⟩, ⟨"u", "A", Mood.glue, 6, 1⟩,
                 ⟨"v", "B", Mood.ok, 6, 1⟩]) 2
      = [[⟨"u", "A", Mood.glue, 6, 1⟩, ⟨"u", "A", Mood.glue, 5, 0⟩]] := by
  decide

/-! ## Association-list lemmas -/

theorem kvLookup_kvSet_self {κ α : Type} [DecidableEq κ] (k : κ) (v : α)
    (l : List (κ × α)) : kvLookup k (kvSet k v l) = some v := by
  induction l with
  | nil => simp [kvSet, kvLookup]
  | cons e rest ih =>
      obtain ⟨k', v'⟩ := e
      by_cases h : k = k'
      · simp [kvSet, kvLookup, h]
      · simp [kvSet, kvLookup, h, ih]

theorem kvLookup_kvSet_ne {κ α : Type} [DecidableEq κ] (k k' : κ) (v : α)
    (l : List (κ × α)) (h : k' ≠ k) :
    kvLookup k' (kvSet k v l) = kvLookup k' l := by
  induction l with
  | nil => simp [kvSet, kvLookup, h]
  | cons e rest ih =>
      obtain ⟨k'', v''⟩ := e
      by_cases h1 : k = k''
      · subst h1
        simp [kvSet, kvLookup, h]
      · by_cases h2 : k' = k''
        · simp [kvSet, kvLookup, h1, h2]
        · simp [kvSet, kvLookup, h1, h2, ih]

theorem mem_kvSet_self {κ α : Type} [DecidableEq κ] (k : κ) (v : α)
    (l : List (κ × α)) : (k, v) ∈ kvSet k v l := by
  induction l with
  | nil => simp [kvSet]
  | cons e rest ih =>
      obtain ⟨k', v'⟩ := e
      by_cases h : k = k'
      · simp [kvSet, h]
      · simp only [kvSet, if_neg h, List.mem_cons]
        exact Or.inr ih

theorem mem_kvSet {κ α : Type} [DecidableEq κ] {k : κ} {v : α}
    {l : List (κ × α)} {e : κ × α} (he : e ∈ kvSet k v l) :
    e = (k, v) ∨ e ∈ l := by
  induction l with
  | nil => simpa [kvSet] using he
  | cons e' rest ih =>
      obtain ⟨k', v'⟩ := e'
      by_cases h : k = k'
      · simp only [kvSet, if_pos h, List.mem_cons] at he
        rcases he with he | he
        · exact Or.inl he
        · exact Or.inr (List.mem_cons_of_mem _ he)
      · simp only [kvSet, if_neg h, List.mem_cons] at he
        rcases he with he | he
        · exact Or.inr (he ▸ List.mem_cons_self _ _)
        · rcases ih he with h1 | h1
          · exact Or.inl h1
          · exact Or.inr (List.mem_cons_of_mem _ h1)

theorem keys_kvSet_subset {κ α : Type} [DecidableEq κ] (k : κ) (v : α)
    (l : List (κ × α)) :
    ∀ k' ∈ (kvSet k v l).map (·.1), k' = k ∨ k' ∈ l.map (·.1) := by
  intro k' hk'
  rcases List.mem_map.mp hk' with ⟨e, he, hke⟩
  rcases mem_kvSet he with h | h
  · left; rw [← hke, h]
  · right; exact hke ▸ List.mem_map_of_mem _ h

theorem nodup_keys_kvSet {κ α : Type} [DecidableEq κ] (k : κ) (v : α)
    {l : List (κ × α)} (h : (l.map (·.1)).Nodup) :
    ((kvSet k v l).map (·.1)).Nodup := by
  induction l with
  | nil => simp [kvSet]
  | cons e rest ih =>
      obtain ⟨k', v'⟩ := e
      simp only [List.map_cons, List.nodup_cons] at h
      by_cases hk : k = k'
      · subst hk
        simpa [kvSet] using h
      · simp only [kvSet, if_neg hk, List.map_cons, List.nodup_cons]
        refine ⟨fun hmem => ?_, ih h.2⟩
        rcases keys_kvSet_subset k v rest _ hmem with h1 | h1
        · exact hk (h1.symm)
        · exact h.1 h1

theorem kvLookup_eq_some_mem {κ α : Type} [DecidableEq κ] {k : κ} {v : α}
    {l : List (κ × α)} (h : kvLookup k l = some v) : (k, v) ∈ l := by
  induction l with
  | nil => simp [kvLookup] at h
  | cons e rest ih =>
      obtain ⟨k', v'⟩ := e
      by_cases hk : k = k'
      · subst hk
        have hv : v' = v := by simpa [kvLookup] using h
        subst hv
        exact List.mem_cons_self _ _
      · simp only [kvLookup, if_neg hk] at h
        exact List.mem_cons_of_mem _ (ih h)

theorem kvLookup_of_mem_nodup {κ α : Type} [DecidableEq κ] {k : κ} {v : α}
    {l : List (κ × α)} (hn : (l.map (·.1)).Nodup) (hm : (k, v) ∈ l) :
    kvLookup k l = some v := by
  induction l with
  | nil => simp at hm
  | cons e rest ih =>
      obtain ⟨k', v'⟩ := e
      simp only [List.map_cons, List.nodup_cons] at hn
      rcases List.mem_cons.mp hm with h | h
      · rw [show k = k' from congrArg Prod.fst h]
        simp [kvLookup, (Prod.mk.injEq _ _ _ _ ▸ h : k = k' ∧ v = v').2]
      · have hk : k ≠ k' := by
          intro hkk
          subst hkk
          exact hn.1 (List.mem_map_of_mem _ h)
        simp only [kvLookup, if_neg hk]
        exact ih hn.2 h

theorem mem_nodup_unique {κ α : Type} [DecidableEq κ] {k : κ} {v w : α}
    {l : List (κ × α)} (hn : (l.map (·.1)).Nodup)
    (hv : (k, v) ∈ l) (hw : (k, w) ∈ l) : v = w := by
  have h1 := kvLookup_of_mem_nodup hn hv
  have h2 := kvLookup_of_mem_nodup hn hw
  rw [h1] at h2
  exact Option.some.inj h2

theorem countP_key_eq_one {κ α : Type} [DecidableEq κ] {k : κ} {v : α}
    {l : List (κ × α)} (hn : (l.map (·.1)).Nodup) (hm : (k, v) ∈ l) :
    l.countP (fun e => decide (e.1 = k)) = 1 := by
  induction l with
  | nil => simp at hm
  | cons e rest ih =>
      obtain ⟨k', v'⟩ := e
      simp only [List.map_cons, List.nodup_cons] at hn
      rcases List.mem_cons.mp hm with h | h
      · have hk : k' = k := (congrArg Prod.fst h).symm
        subst hk
        rw [List.countP_cons_of_pos _ _ (by simp)]
        have : rest.countP (fun e => decide (e.1 = k')) = 0 := by
          rw [List.countP_eq_zero]
          intro e he hbe
          exact hn.1 (List.mem_map.mpr ⟨e, he, (by simpa using hbe)⟩)
        omega
      · have hk : k ≠ k' := by
          intro hkk
          subst hkk
          exact hn.1 (List.mem_map_of_mem _ h)
        rw [List.countP_cons_of_neg _ _ (by simpa using Ne.symm hk)]
        exact ih hn.2 h

/-! ## The reachable-store invariant

Every store built by a sequence of `recordVote` calls satisfies `KvInv`:
keys mirror the record fields, keys are unique in each index, and the two
indexes hold the same record for every `(userId, date)` pair. -/

structure KvInv (kv : Kv) : Prop where
  votes_keys : ∀ e ∈ kv.votes, e.1 = (e.2.date, e.2.odUserId)
  user_keys : ∀ e ∈ kv.userVotes, e.1 = (e.2.odUserId, e.2.date)
  votes_nodup : (kv.votes.map (·.1)).Nodup
  user_nodup : (kv.userVotes.map (·.1)).Nodup
  sync : ∀ (d : Nat) (u : String),
    kvLookup (d, u) kv.votes = kvLookup (u, d) kv.userVotes

theorem kvInv_empty : KvInv Kv.empty := by
  refine ⟨?_, ?_, ?_, ?_, ?_⟩ <;> simp [Kv.empty, kvLookup]

theorem kvInv_recordVote (u n : String) (m : Mood) (d t : Nat) {kv : Kv}
    (h : KvInv kv) : KvInv (recordVote u n m d t kv) := by
  constructor
  · intro e he
    rcases mem_kvSet he with h1 | h1
    · subst h1; rfl
    · exact h.votes_keys e h1
  · intro e he
    rcases mem_kvSet he with h1 | h1
    · subst h1; rfl
    · exact h.user_keys e h1
  · exact nodup_keys_kvSet _ _ h.votes_nodup
  · exact nodup_keys_kvSet _ _ h.user_nodup
  · intro d' u'
    by_cases hdu : d' = d ∧ u' = u
    · obtain ⟨rfl, rfl⟩ := hdu
      show kvLookup (d', u') (kvSet (d', u') _ kv.votes)
        = kvLookup (u', d') (kvSet (u', d') _ kv.userVotes)
      rw [kvLookup_kvSet_self, kvLookup_kvSet_self]
    · have h1 : (d', u') ≠ (d, u) := by
        intro hc
        exact hdu ⟨congrArg Prod.fst hc, congrArg Prod.snd hc⟩
      have h2 : (u', d') ≠ (u, d) := by
        intro hc
        exact hdu ⟨congrArg Prod.snd hc, congrArg Prod.fst hc⟩
      show kvLookup (d', u') (kvSet (d, u) _ kv.votes)
        = kvLookup (u', d') (kvSet (u, d) _ kv.userVotes)
      rw [kvLookup_kvSet_ne _ _ _ _ h1, kvLookup_kvSet_ne _ _ _ _ h2]
      exact h.sync d' u'

theorem kvInv_foldl (ops : List VoteOp) {kv : Kv} (h : KvInv kv) :
    KvInv (ops.foldl
      (fun kv op => recordVote op.userId op.userName op.mood op.date op.now kv)
      kv) := by
  induction ops generalizing kv with
  | nil => exact h
  | cons op rest ih =>
      exact ih (kvInv_recordVote _ _ _ _ _ h)

theorem kvInv_runVotes (ops : List VoteOp) : KvInv (runVotes ops) :=
  kvInv_foldl ops kvInv_empty

/-! ## Query-level consequences of the invariant -/

/-- Every record reported by `getVotesForDate kv d` sits in the `votes`
index under key `(d, r.odUserId)`. -/
theorem mem_getVotesForDate {kv : Kv} (h : KvInv kv) {d : Nat}
    {r : VoteRecord} (hr : r ∈ getVotesForDate kv d) :
    r.date = d ∧ ((d, r.odUserId), r) ∈ kv.votes := by
  rcases List.mem_map.mp hr with ⟨e, he, rfl⟩
  have h1 := List.mem_filter.mp he
  have h2 := h.votes_keys e h1.1
  have h3 : e.1.1 = d := by simpa using h1.2
  have h4 : e.2.date = d := by rw [h2] at h3; exact h3
  refine ⟨h4, ?_⟩
  have : e.1 = (d, e.2.odUserId) := by rw [h2, h4]
  rw [← this]
  exact h1.1

/-- Every record in a user's raw index scan sits in the `userVotes` index
under key `(userId, r.date)` and carries that user's id. -/
theorem mem_userRecords {kv : Kv} (h : KvInv kv) {u : String}
    {r : VoteRecord} (hr : r ∈ userRecords kv u) :
    r.odUserId = u ∧ ((u, r.date), r) ∈ kv.userVotes := by
  rcases List.mem_map.mp hr with ⟨e, he, rfl⟩
  have h1 := List.mem_filter.mp he
  have h2 := h.user_keys e h1.1
  have h3 : e.1.1 = u := by simpa using h1.2
  have h4 : e.2.odUserId = u := by rw [h2] at h3; exact h3
  refine ⟨h4, ?_⟩
  have : e.1 = (u, e.2.date) := by rw [h2, h4]
  rw [← this]
  exact h1.1

/-- Records reported by `getUserHistory` come from the user's index scan. -/
theorem mem_getUserHistory {kv : Kv} {u : String} {k : Nat}
    {r : VoteRecord} (hr : r ∈ getUserHistory kv u k) :
    r ∈ userRecords kv u := by
  have h1 : r ∈ (userRecords kv u).insertionSort dateDesc :=
    List.take_subset _ _ hr
  exact (List.mem_insertionSort dateDesc).mp h1

/-- Under the invariant, the dates of a user's raw records are pairwise
distinct: the index is keyed by `(userId, date)`. -/
theorem userRecords_dates_nodup {kv : Kv} (h : KvInv kv) (u : String) :
    ((userRecords kv u).map (·.date)).Nodup := by
  have hsub : List.Sublist
      ((kv.userVotes.filter (fun e => e.1.1 == u)).map (·.1))
      (kv.userVotes.map (·.1)) :=
    (List.filter_sublist _).map _
  have hn : ((kv.userVotes.filter (fun e => e.1.1 == u)).map (·.1)).Nodup :=
    h.user_nodup.sublist hsub
  have hagree : ∀ e ∈ kv.userVotes.filter (fun e => e.1.1 == u),
      e.2.date = e.1.2 := by
    intro e he
    have := h.user_keys e (List.mem_filter.mp he).1
    rw [this]
  have hmap : (userRecords kv u).map (·.date)
      = (kv.userVotes.filter (fun e => e.1.1 == u)).map (·.1.2) := by
    unfold userRecords
    rw [List.map_map]
    exact List.map_congr_left hagree
  rw [hmap]
  have : ((kv.userVotes.filter (fun e => e.1.1 == u)).map (·.1.2))
      = ((kv.userVotes.filter (fun e => e.1.1 == u)).map (·.1)).map (·.2) := by
    rw [List.map_map]
    rfl
  rw [this]
  refine (List.nodup_map_iff_inj_on hn).mpr ?_
  intro k1 hk1 k2 hk2 hsnd
  rcases List.mem_map.mp hk1 with ⟨e1, he1, rfl⟩
  rcases List.mem_map.mp hk2 with ⟨e2, he2, rfl⟩
  have hu1 : e1.1.1 = u := by simpa using (List.mem_filter.mp he1).2
  have hu2 : e2.1.1 = u := by simpa using (List.mem_filter.mp he2).2
  exact Prod.ext (hu1.trans hu2.symm) hsnd

/-- `countLeadingGlue` is the length of the all-glue prefix. -/
theorem countLeadingGlue_eq_takeWhile (l : List VoteRecord) :
    countLeadingGlue l
      = (l.takeWhile (fun r => r.mood == Mood.glue)).length := by
  induction l with
  | nil => rfl
  | cons r rest ih =>
      by_cases h : r.mood = Mood.glue
      · simp [countLeadingGlue, List.takeWhile_cons, h, ih]
      · simp [countLeadingGlue, List.takeWhile_cons, h]

/-- `countLeadingGlue` never exceeds the list length. -/
theorem countLeadingGlue_le_length : ∀ l : List VoteRecord,
    countLeadingGlue l ≤ l.length
  | [] => Nat.le_refl 0
  | r :: rest => by
      by_cases h : r.mood = Mood.glue
      · simpa [countLeadingGlue, h] using countLeadingGlue_le_length rest
      · simp [countLeadingGlue, h]

/-- `countLeadingGlue` only looks at the moods. -/
theorem countLeadingGlue_congr_moods : ∀ (l l' : List VoteRecord),
    l.map (·.mood) = l'.map (·.mood) →
    countLeadingGlue l = countLeadingGlue l'
  | [], [], _ => rfl
  | [], _ :: _, h => by simp at h
  | _ :: _, [], h => by simp at h
  | r :: rest, r' :: rest', h => by
      simp only [List.map_cons, List.cons.injEq] at h
      simp only [countLeadingGlue, h.1,
        countLeadingGlue_congr_moods rest rest' h.2]

/-- If every glue streak fact needs it: the head of a sorted history. -/
theorem getUserHistory_sorted (kv : Kv) (u : String) (k : Nat) :
    List.Sorted dateDesc (getUserHistory kv u k) :=
  (List.sorted_insertionSort dateDesc _).sublist (List.take_sublist _ _)

/-! ## Claims -/

/-- Claim C1 — Overwrite invariant: after any sequence of `recordVote` calls,
a further `recordVote` for `(userId, date)` leaves exactly one entry for
that pair in each index, `getVotesForDate` reports the new record, and any
record either query reports for that pair is the new record (last write
wins, no error on overwrite: `recordVote` is total). -/
theorem recordVote_last_write_wins (ops : List VoteOp) (u n : String)
    (m : Mood) (d t : Nat) :
    (recordVote u n m d t (runVotes ops)).votes.countP
        (fun e => decide (e.1 = (d, u))) = 1 ∧
    (recordVote u n m d t (runVotes ops)).userVotes.countP
        (fun e => decide (e.1 = (u, d))) = 1 ∧
    VoteRecord.mk u n m d t
      ∈ getVotesForDate (recordVote u n m d t (runVotes ops)) d ∧
    (∀ r ∈ getVotesForDate (recordVote u n m d t (runVotes ops)) d,
      r.odUserId = u → r = VoteRecord.mk u n m d t) ∧
    (∀ k, ∀ r ∈ getUserHistory (recordVote u n m d t (runVotes ops)) u k,
      r.date = d → r = VoteRecord.mk u n m d t) := by
  set kv := recordVote u n m d t (runVotes ops) with hkv
  have hinv : KvInv kv := kvInv_recordVote u n m d t (kvInv_runVotes ops)
  have hmemv : ((d, u), VoteRecord.mk u n m d t) ∈ kv.votes :=
    mem_kvSet_self _ _ _
  have hmemu : ((u, d), VoteRecord.mk u n m d t) ∈ kv.userVotes :=
    mem_kvSet_self _ _ _
  refine ⟨?_, ?_, ?_, ?_, ?_⟩
  · exact countP_key_eq_one hinv.votes_nodup hmemv
  · exact countP_key_eq_one hinv.user_nodup hmemu
  · exact List.mem_map.mpr
      ⟨((d, u), VoteRecord.mk u n m d t),
       List.mem_filter.mpr ⟨hmemv, by simp⟩, rfl⟩
  · intro r hr hru
    have h1 := mem_getVotesForDate hinv hr
    have h2 : ((d, u), r) ∈ kv.votes := by
      rw [← hru]
      exact h1.2
    exact mem_nodup_unique hinv.votes_nodup h2 hmemv
  · intro k r hr hrd
    have h1 := mem_userRecords hinv (mem_getUserHistory hr)
    have h2 : ((u, d), r) ∈ kv.userVotes := by
      have h1b := h1.2
      rw [hrd] at h1b
      exact h1b
    exact mem_nodup_unique hinv.user_nodup h2 hmemu

/-- Witness for C1 at a concrete overwrite. -/
theorem recordVote_last_write_wins_witness :
    (recordVote "u1" "Alice" Mood.umazing 10 1
        (runVotes [⟨"u1", "Alice", Mood.glue, 10, 0⟩])).votes.countP
        (fun e => decide (e.1 = (10, "u1"))) = 1 ∧
    (recordVote "u1" "Alice" Mood.umazing 10 1
        (runVotes [⟨"u1", "Alice", Mood.glue, 10, 0⟩])).userVotes.countP
        (fun e => decide (e.1 = ("u1", 10))) = 1 ∧
    VoteRecord.mk "u1" "Alice" Mood.umazing 10 1
      ∈ getVotesForDate (recordVote "u1" "Alice" Mood.umazing 10 1
          (runVotes [⟨"u1", "Alice", Mood.glue, 10, 0⟩])) 10 ∧
    (∀ r ∈ getVotesForDate (recordVote "u1" "Alice" Mood.umazing 10 1
        (runVotes [⟨"u1", "Alice", Mood.glue, 10, 0⟩])) 10,
      r.odUserId = "u1" → r = VoteRecord.mk "u1" "Alice" Mood.umazing 10 1) ∧
    (∀ k, ∀ r ∈ getUserHistory (recordVote "u1" "Alice" Mood.umazing 10 1
        (runVotes [⟨"u1", "Alice", Mood.glue, 10, 0⟩])) "u1" k,
      r.date = 10 → r = VoteRecord.mk "u1" "Alice" Mood.umazing 10 1) :=
  recordVote_last_write_wins [⟨"u1", "Alice", Mood.glue, 10, 0⟩]
    "u1" "Alice" Mood.umazing 10 1

/-- Claim C2 — Index consistency: after any sequence of `recordVote` calls the
two indexes agree pointwise (`kvLookup` at `(d, u)` in `votes` equals
`kvLookup` at `(u, d)` in `userVotes`), and any record `getVotesForDate d`
reports for user `u` is identical — all fields — to any record
`getUserHistory u` reports for date `d`. -/
theorem index_consistency (ops : List VoteOp) (u : String) (d k : Nat) :
    kvLookup (d, u) (runVotes ops).votes
      = kvLookup (u, d) (runVotes ops).userVotes ∧
    (∀ r ∈ getVotesForDate (runVotes ops) d, r.odUserId = u →
      ∀ r' ∈ getUserHistory (runVotes ops) u k, r'.date = d → r = r') := by
  have hinv : KvInv (runVotes ops) := kvInv_runVotes ops
  refine ⟨hinv.sync d u, ?_⟩
  intro r hr hru r' hr' hrd
  have h1 := mem_getVotesForDate hinv hr
  have h2 : ((d, u), r) ∈ (runVotes ops).votes := by
    rw [← hru]
    exact h1.2
  have h3 := mem_userRecords hinv (mem_getUserHistory hr')
  have h4 : ((u, d), r') ∈ (runVotes ops).userVotes := by
    have h3b := h3.2
    rw [hrd] at h3b
    exact h3b
  have h5 := kvLookup_of_mem_nodup hinv.votes_nodup h2
  have h6 := kvLookup_of_mem_nodup hinv.user_nodup h4
  have h7 := hinv.sync d u
  rw [h5, h6] at h7
  exact Option.some.inj h7

/-- Witness for C2 at a concrete store with one vote. -/
theorem index_consistency_witness :
    kvLookup (10, "u1") (runVotes [⟨"u1", "Alice", Mood.ok, 10, 5⟩]).votes
      = kvLookup ("u1", 10)
        (runVotes [⟨"u1", "Alice", Mood.ok, 10, 5⟩]).userVotes ∧
    (∀ r ∈ getVotesForDate (runVotes [⟨"u1", "Alice", Mood.ok, 10, 5⟩]) 10,
      r.odUserId = "u1" →
      ∀ r' ∈ getUserHistory (runVotes [⟨"u1", "Alice", Mood.ok, 10, 5⟩])
          "u1" 30, r'.date = 10 → r = r') :=
  index_consistency [⟨"u1", "Alice", Mood.ok, 10, 5⟩] "u1" 10 30

/-- Claim C3 — `getConsecutiveGlueCount` equals the number of leading glue
entries of `getUserHistory(userId, 30)` (the all-glue prefix length), is 0
on empty history or when the most recent vote is not glue, and never
exceeds 30. -/
theorem glue_count_spec (kv : Kv) (u : String) :
    getConsecutiveGlueCount kv u
      = ((getUserHistory kv u 30).takeWhile
          (fun r => r.mood == Mood.glue)).length ∧
    getConsecutiveGlueCount kv u ≤ 30 ∧
    (getUserHistory kv u 30 = [] → getConsecutiveGlueCount kv u = 0) ∧
    (∀ r rest, getUserHistory kv u 30 = r :: rest → r.mood ≠ Mood.glue →
      getConsecutiveGlueCount kv u = 0) := by
  refine ⟨countLeadingGlue_eq_takeWhile _, ?_, ?_, ?_⟩
  · calc getConsecutiveGlueCount kv u
        ≤ (getUserHistory kv u 30).length :=
          countLeadingGlue_le_length _
      _ ≤ 30 := by
          unfold getUserHistory
          exact List.length_take_le 30 _
  · intro h
    unfold getConsecutiveGlueCount
    rw [h]
    rfl
  · intro r rest h hm
    unfold getConsecutiveGlueCount
    rw [h]
    simp [countLeadingGlue, hm]

/-- Witness for C3 on a concrete two-vote store whose most recent vote is
not glue. -/
theorem glue_count_spec_witness :
    getConsecutiveGlueCount
        (runVotes [⟨"u", "A", Mood.glue, 5, 0⟩, ⟨"u", "A", Mood.ok, 6, 1⟩])
        "u"
      = ((getUserHistory
            (runVotes [⟨"u", "A", Mood.glue, 5, 0⟩,
              ⟨"u", "A", Mood.ok, 6, 1⟩]) "u" 30).takeWhile
          (fun r => r.mood == Mood.glue)).length ∧
    getConsecutiveGlueCount
        (runVotes [⟨"u", "A", Mood.glue, 5, 0⟩, ⟨"u", "A", Mood.ok, 6, 1⟩])
        "u" ≤ 30 ∧
    (getUserHistory
        (runVotes [⟨"u", "A", Mood.glue, 5, 0⟩, ⟨"u", "A", Mood.ok, 6, 1⟩])
        "u" 30 = [] →
      getConsecutiveGlueCount
        (runVotes [⟨"u", "A", Mood.glue, 5, 0⟩, ⟨"u", "A", Mood.ok, 6, 1⟩])
        "u" = 0) ∧
    (∀ r rest,
      getUserHistory
        (runVotes [⟨"u", "A", Mood.glue, 5, 0⟩, ⟨"u", "A", Mood.ok, 6, 1⟩])
        "u" 30 = r :: rest → r.mood ≠ Mood.glue →
      getConsecutiveGlueCount
        (runVotes [⟨"u", "A", Mood.glue, 5, 0⟩, ⟨"u", "A", Mood.ok, 6, 1⟩])
        "u" = 0) :=
  glue_count_spec
    (runVotes [⟨"u", "A", Mood.glue, 5, 0⟩, ⟨"u", "A", Mood.ok, 6, 1⟩]) "u"

/-- Helper for the spec-side calendar streak: continue a streak below a
previous date only while the entries stay glue and exactly one day apart. -/
def calendarStreakFrom (prev : Nat) : List VoteRecord → Nat
  | [] => 0
  | r :: rest =>
      if r.mood = Mood.glue ∧ r.date + 1 = prev then
        calendarStreakFrom r.date rest + 1
      else 0

/-- Spec-side definition, for the refinement comparison of claim C4.  The
spec's glossary reads: a streak is a run of **consecutive calendar days**,
ending at the most recent recorded day, all reporting glue.  Walked over the
date-descending history: leading glue entries count only while each is
exactly one day before the previous one. -/
def calendarGlueStreak : List VoteRecord → Nat
  | [] => 0
  | r :: rest =>
      if r.mood = Mood.glue then calendarStreakFrom r.date rest + 1 else 0

/-- A store with two glue votes of one user on non-adjacent days. -/
def gapOps : List VoteOp :=
  [⟨"u1", "Alice", Mood.glue, 10, 0⟩, ⟨"u1", "Alice", Mood.glue, 15, 1⟩]

/-- Claim C4 counterexample — the code's count is *not* a run of consecutive
calendar days.  With glue votes on days 10 and 15 only (a gap of five
days), the history is `[15, 10]` yet `getConsecutiveGlueCount` returns 2,
while the spec's calendar-day streak is 1 — a gap in recorded dates does
not end the code's streak. -/
theorem glue_streak_gap_counterexample :
    (getUserHistory (runVotes gapOps) "u1" 30).map (·.date) = [15, 10] ∧
    getConsecutiveGlueCount (runVotes gapOps) "u1" = 2 ∧
    calendarGlueStreak (getUserHistory (runVotes gapOps) "u1" 30) = 1 ∧
    getConsecutiveGlueCount (runVotes gapOps) "u1"
      ≠ calendarGlueStreak (getUserHistory (runVotes gapOps) "u1" 30) := by
  refine ⟨?_, ?_, ?_, ?_⟩ <;> decide

/-- Claim C4 amended — the count returned by `getConsecutiveGlueCount` is the
run of leading glue entries of the date-descending history, ending at the
most recent recorded day; a non-glue entry ends it, but a gap between
recorded calendar dates does not — the count depends only on the sequence
of moods, not on date adjacency. -/
theorem glue_count_ignores_date_gaps (kv kv' : Kv) (u u' : String)
    (h : (getUserHistory kv u 30).map (·.mood)
      = (getUserHistory kv' u' 30).map (·.mood)) :
    getConsecutiveGlueCount kv u = getConsecutiveGlueCount kv' u' :=
  countLeadingGlue_congr_moods _ _ h

/-- Witness for the amended C4: the gapped store of the counterexample and
an adjacent-days store have equal mood sequences, hence equal counts. -/
theorem glue_count_ignores_date_gaps_witness :
    ((getUserHistory (runVotes gapOps) "u1" 30).map (·.mood)
      = (getUserHistory (runVotes [⟨"u1", "Alice", Mood.glue, 10, 0⟩,
          ⟨"u1", "Alice", Mood.glue, 11, 1⟩]) "u1" 30).map (·.mood)) ∧
    getConsecutiveGlueCount (runVotes gapOps) "u1"
      = getConsecutiveGlueCount
          (runVotes [⟨"u1", "Alice", Mood.glue, 10, 0⟩,
            ⟨"u1", "Alice", Mood.glue, 11, 1⟩]) "u1" :=
  ⟨by decide, glue_count_ignores_date_gaps _ _ _ _ (by decide)⟩

/-- Claim C6 — History ordering: after any sequence of `recordVote` calls,
`getUserHistory u k` is strictly sorted by date descending, has length
`min k N` where `N` is the number of stored votes of `u`, draws all its
records from `u`'s index entries, omits only records older than everything
it returns, is empty for a user with no records, and the omitted limit
defaults to 30. -/
theorem history_spec (ops : List VoteOp) (u : String) (k : Nat) :
    List.Sorted (fun a b : VoteRecord => b.date < a.date)
      (getUserHistory (runVotes ops) u k) ∧
    (getUserHistory (runVotes ops) u k).length
      = min k (userRecords (runVotes ops) u).length ∧
    (∀ r ∈ getUserHistory (runVotes ops) u k,
      r ∈ userRecords (runVotes ops) u) ∧
    (∀ r ∈ userRecords (runVotes ops) u,
      r ∉ getUserHistory (runVotes ops) u k →
      ∀ r' ∈ getUserHistory (runVotes ops) u k, r.date < r'.date) ∧
    (userRecords (runVotes ops) u = [] →
      getUserHistory (runVotes ops) u k = []) ∧
    getUserHistoryDefault (runVotes ops) u
      = getUserHistory (runVotes ops) u 30 := by
  have hinv : KvInv (runVotes ops) := kvInv_runVotes ops
  have hnd : ((userRecords (runVotes ops) u).map (·.date)).Nodup :=
    userRecords_dates_nodup hinv u
  have hperm : ((userRecords (runVotes ops) u).insertionSort dateDesc).Perm
      (userRecords (runVotes ops) u) :=
    List.perm_insertionSort dateDesc _
  have hsd : ((((userRecords (runVotes ops) u).insertionSort
      dateDesc)).map (·.date)).Nodup :=
    ((hperm.map (·.date)).nodup_iff).mpr hnd
  have hsort : List.Sorted dateDesc
      ((userRecords (runVotes ops) u).insertionSort dateDesc) :=
    List.sorted_insertionSort dateDesc _
  refine ⟨?_, ?_, ?_, ?_, ?_, rfl⟩
  · have h1 : List.Sorted dateDesc (getUserHistory (runVotes ops) u k) :=
      hsort.sublist (List.take_sublist _ _)
    have h2 : ((getUserHistory (runVotes ops) u k).map (·.date)).Nodup :=
      hsd.sublist ((List.take_sublist _ _).map _)
    have h3 : List.Pairwise (fun a b : VoteRecord => a.date ≠ b.date)
        (getUserHistory (runVotes ops) u k) :=
      (List.pairwise_map.mp h2)
    exact (h1.and h3).imp
      (fun hab => Nat.lt_of_le_of_ne hab.1 (Ne.symm hab.2))
  · unfold getUserHistory
    rw [List.length_take, List.length_insertionSort]
  · intro r hr
    exact mem_getUserHistory hr
  · intro r hr hnot r' hr'
    have hrs : r ∈ (userRecords (runVotes ops) u).insertionSort dateDesc :=
      (List.mem_insertionSort dateDesc).mpr hr
    have hsplit := List.take_append_drop k
      ((userRecords (runVotes ops) u).insertionSort dateDesc)
    have hdrop : r ∈ ((userRecords (runVotes ops) u).insertionSort
        dateDesc).drop k := by
      rcases List.mem_append.mp (hsplit ▸ hrs) with h | h
      · exact absurd h hnot
      · exact h
    have hpair : List.Pairwise dateDesc
        (((userRecords (runVotes ops) u).insertionSort dateDesc).take k ++
          ((userRecords (runVotes ops) u).insertionSort dateDesc).drop k) := by
      rw [hsplit]
      exact hsort
    have hle : r.date ≤ r'.date :=
      (List.pairwise_append.mp hpair).2.2 r' hr' r hdrop
    have hne : r ≠ r' := fun hc => hnot (hc ▸ hr')
    have hdne : r.date ≠ r'.date := by
      intro hc
      exact hne (List.inj_on_of_nodup_map hsd
        ((List.drop_subset _ _) hdrop)
        ((List.take_subset _ _) hr') hc)
    exact Nat.lt_of_le_of_ne hle hdne
  · intro h
    unfold getUserHistory
    rw [h]
    simp

/-- Witness for C6 on a concrete three-vote store with limit 2. -/
theorem history_spec_witness :
    List.Sorted (fun a b : VoteRecord => b.date < a.date)
      (getUserHistory (runVotes [⟨"u", "A", Mood.umazing, 8, 0⟩,
        ⟨"u", "A", Mood.ok, 10, 1⟩, ⟨"u", "A", Mood.glue, 9, 2⟩]) "u" 2) ∧
    (getUserHistory (runVotes [⟨"u", "A", Mood.umazing, 8, 0⟩,
        ⟨"u", "A", Mood.ok, 10, 1⟩, ⟨"u", "A", Mood.glue, 9, 2⟩])
        "u" 2).length
      = min 2 (userRecords (runVotes [⟨"u", "A", Mood.umazing, 8, 0⟩,
          ⟨"u", "A", Mood.ok, 10, 1⟩, ⟨"u", "A", Mood.glue, 9, 2⟩])
          "u").length ∧
    (∀ r ∈ getUserHistory (runVotes [⟨"u", "A", Mood.umazing, 8, 0⟩,
        ⟨"u", "A", Mood.ok, 10, 1⟩, ⟨"u", "A", Mood.glue, 9, 2⟩]) "u" 2,
      r ∈ userRecords (runVotes [⟨"u", "A", Mood.umazing, 8, 0⟩,
        ⟨"u", "A", Mood.ok, 10, 1⟩, ⟨"u", "A", Mood.glue, 9, 2⟩]) "u") ∧
    (∀ r ∈ userRecords (runVotes [⟨"u", "A", Mood.umazing, 8, 0⟩,
        ⟨"u", "A", Mood.ok, 10, 1⟩, ⟨"u", "A", Mood.glue, 9, 2⟩]) "u",
      r ∉ getUserHistory (runVotes [⟨"u", "A", Mood.umazing, 8, 0⟩,
        ⟨"u", "A", Mood.ok, 10, 1⟩, ⟨"u", "A", Mood.glue, 9, 2⟩]) "u" 2 →
      ∀ r' ∈ getUserHistory (runVotes [⟨"u", "A", Mood.umazing, 8, 0⟩,
        ⟨"u", "A", Mood.ok, 10, 1⟩, ⟨"u", "A", Mood.glue, 9, 2⟩]) "u" 2,
      r.date < r'.date) ∧
    (userRecords (runVotes [⟨"u", "A", Mood.umazing, 8, 0⟩,
        ⟨"u", "A", Mood.ok, 10, 1⟩, ⟨"u", "A", Mood.glue, 9, 2⟩]) "u" = [] →
      getUserHistory (runVotes [⟨"u", "A", Mood.umazing, 8, 0⟩,
        ⟨"u", "A", Mood.ok, 10, 1⟩, ⟨"u", "A", Mood.glue, 9, 2⟩])
        "u" 2 = []) ∧
    getUserHistoryDefault (runVotes [⟨"u", "A", Mood.umazing, 8, 0⟩,
        ⟨"u", "A", Mood.ok, 10, 1⟩, ⟨"u", "A", Mood.glue, 9, 2⟩]) "u"
      = getUserHistory (runVotes [⟨"u", "A", Mood.umazing, 8, 0⟩,
        ⟨"u", "A", Mood.ok, 10, 1⟩, ⟨"u", "A", Mood.glue, 9, 2⟩]) "u" 30 :=
  history_spec [⟨"u", "A", Mood.umazing, 8, 0⟩, ⟨"u", "A", Mood.ok, 10, 1⟩,
    ⟨"u", "A", Mood.glue, 9, 2⟩] "u" 2

/-- A JavaScript `Set` never holds duplicates. -/
theorem nodup_setInsert (x : String) {s : List String} (h : s.Nodup) :
    (setInsert x s).Nodup := by
  unfold setInsert
  by_cases hx : x ∈ s
  · simpa [hx] using h
  · rw [if_neg hx, List.nodup_append]
    exact ⟨h, List.nodup_singleton x,
      fun a ha hax => hx ((List.mem_singleton.mp hax) ▸ ha)⟩

theorem foldl_setInsert_nodup (l : List ((String × Nat) × VoteRecord)) :
    ∀ {acc : List String}, acc.Nodup →
    (l.foldl (fun s e => setInsert e.2.odUserId s) acc).Nodup := by
  induction l with
  | nil => exact fun h => h
  | cons e rest ih => exact fun h => ih (nodup_setInsert _ h)

theorem kvUserIds_nodup (kv : Kv) : (kvUserIds kv).Nodup :=
  foldl_setInsert_nodup _ List.nodup_nil

/-- Every record a user's history reports carries that user's id
(reachable stores). -/
theorem getUserHistory_odUserId {kv : Kv} (hinv : KvInv kv) {u : String}
    {k : Nat} {r : VoteRecord} (hr : r ∈ getUserHistory kv u k) :
    r.odUserId = u :=
  (mem_userRecords hinv (mem_getUserHistory hr)).1

/-- Claim C5 — At-risk threshold boundary: after any sequence of `recordVote`
calls, a known user whose consecutive glue count reaches `t` contributes
`getUserHistory(u, t)` to `getUsersAtRisk t`; a user whose count is below
`t` contributes nothing (no returned record carries their id); and at most
one inner sequence holds records of any given user. -/
theorem atRisk_threshold (ops : List VoteOp) (t : Nat) (u : String) :
    (u ∈ kvUserIds (runVotes ops) →
      t ≤ getConsecutiveGlueCount (runVotes ops) u →
      getUserHistory (runVotes ops) u t
        ∈ getUsersAtRisk (runVotes ops) t) ∧
    (getConsecutiveGlueCount (runVotes ops) u < t →
      ∀ h ∈ getUsersAtRisk (runVotes ops) t, ∀ r ∈ h, r.odUserId ≠ u) ∧
    (getUsersAtRisk (runVotes ops) t).countP
        (fun h => h.any (fun r => r.odUserId == u)) ≤ 1 := by
  have hinv : KvInv (runVotes ops) := kvInv_runVotes ops
  refine ⟨?_, ?_, ?_⟩
  · intro hu ht
    exact List.mem_map_of_mem _
      (List.mem_filter.mpr ⟨hu, decide_eq_true ht⟩)
  · intro hcount h hh r hr hru
    rcases List.mem_map.mp hh with ⟨u', hu', rfl⟩
    have ht : t ≤ getConsecutiveGlueCount (runVotes ops) u' :=
      of_decide_eq_true (List.mem_filter.mp hu').2
    have : r.odUserId = u' := getUserHistory_odUserId hinv hr
    rw [hru] at this
    rw [← this] at ht
    exact absurd ht (Nat.not_le_of_lt hcount)
  · unfold getUsersAtRisk
    rw [List.countP_map]
    have hstep : ∀ u' ∈ (kvUserIds (runVotes ops)).filter
        (fun v => decide (t ≤ getConsecutiveGlueCount (runVotes ops) v)),
        ((fun h : List VoteRecord => h.any (fun r => r.odUserId == u)) ∘
          (fun v => getUserHistory (runVotes ops) v t)) u' = true →
        (u' == u) = true := by
      intro u' _ hq
      rcases List.any_eq_true.mp hq with ⟨r, hr, hru⟩
      have h1 : r.odUserId = u' := getUserHistory_odUserId hinv hr
      have h2 : r.odUserId = u := by simpa using hru
      exact beq_iff_eq.mpr (h1 ▸ h2)
    calc ((kvUserIds (runVotes ops)).filter
          (fun v => decide (t ≤ getConsecutiveGlueCount (runVotes ops) v))).countP
          ((fun h : List VoteRecord => h.any (fun r => r.odUserId == u)) ∘
            (fun v => getUserHistory (runVotes ops) v t))
        ≤ ((kvUserIds (runVotes ops)).filter
          (fun v => decide (t ≤ getConsecutiveGlueCount (runVotes ops) v))).countP
          (· == u) := List.countP_mono_left hstep
      _ ≤ (kvUserIds (runVotes ops)).countP (· == u) :=
          (List.filter_sublist _).countP_le _
      _ = (kvUserIds (runVotes ops)).count u := (List.count_eq_countP _ _).symm
      _ ≤ 1 := List.nodup_iff_count_le_one.mp (kvUserIds_nodup _) u

/-- Witness for C5: one user with a two-day glue streak, threshold 2;
a second user below threshold. -/
theorem atRisk_threshold_witness :
    ("u1" ∈ kvUserIds (runVotes [⟨"u1", "A", Mood.glue, 5, 0⟩,
        ⟨"u1", "A", Mood.glue, 6, 1⟩, ⟨"u2", "B", Mood.ok, 6, 1⟩]) →
      2 ≤ getConsecutiveGlueCount (runVotes [⟨"u1", "A", Mood.glue, 5, 0⟩,
        ⟨"u1", "A", Mood.glue, 6, 1⟩, ⟨"u2", "B", Mood.ok, 6, 1⟩]) "u1" →
      getUserHistory (runVotes [⟨"u1", "A", Mood.glue, 5, 0⟩,
        ⟨"u1", "A", Mood.glue, 6, 1⟩, ⟨"u2", "B", Mood.ok, 6, 1⟩]) "u1" 2
        ∈ getUsersAtRisk (runVotes [⟨"u1", "A", Mood.glue, 5, 0⟩,
          ⟨"u1", "A", Mood.glue, 6, 1⟩, ⟨"u2", "B", Mood.ok, 6, 1⟩]) 2) ∧
    (getConsecutiveGlueCount (runVotes [⟨"u1", "A", Mood.glue, 5, 0⟩,
        ⟨"u1", "A", Mood.glue, 6, 1⟩, ⟨"u2", "B", Mood.ok, 6, 1⟩]) "u2" < 2 →
      ∀ h ∈ getUsersAtRisk (runVotes [⟨"u1", "A", Mood.glue, 5, 0⟩,
        ⟨"u1", "A", Mood.glue, 6, 1⟩, ⟨"u2", "B", Mood.ok, 6, 1⟩]) 2,
      ∀ r ∈ h, r.odUserId ≠ "u2") ∧
    (getUsersAtRisk (runVotes [⟨"u1", "A", Mood.glue, 5, 0⟩,
        ⟨"u1", "A", Mood.glue, 6, 1⟩, ⟨"u2", "B", Mood.ok, 6, 1⟩]) 2).countP
        (fun h => h.any (fun r => r.odUserId == "u2")) ≤ 1 := by
  refine ⟨fun hu ht => ?_, ?_, ?_⟩
  · exact (atRisk_threshold [⟨"u1", "A", Mood.glue, 5, 0⟩,
      ⟨"u1", "A", Mood.glue, 6, 1⟩, ⟨"u2", "B", Mood.ok, 6, 1⟩] 2
      "u1").1 hu ht
  · exact (atRisk_threshold [⟨"u1", "A", Mood.glue, 5, 0⟩,
      ⟨"u1", "A", Mood.glue, 6, 1⟩, ⟨"u2", "B", Mood.ok, 6, 1⟩] 2
      "u2").2.1
  · exact (atRisk_threshold [⟨"u1", "A", Mood.glue, 5, 0⟩,
      ⟨"u1", "A", Mood.glue, 6, 1⟩, ⟨"u2", "B", Mood.ok, 6, 1⟩] 2
      "u2").2.2

/-- Within the leading glue run, every taken record reports glue. -/
theorem mem_take_countLeadingGlue : ∀ {l : List VoteRecord} {n : Nat},
    n ≤ countLeadingGlue l → ∀ r ∈ l.take n, r.mood = Mood.glue
  | _, 0, _, r, hr => by simp at hr
  | [], _ + 1, _, r, hr => by simp at hr
  | x :: rest, n + 1, hn, r, hr => by
      have hx : x.mood = Mood.glue := by
        by_contra hc
        simp [countLeadingGlue, hc] at hn
      rw [List.take_succ_cons] at hr
      rcases List.mem_cons.mp hr with h | h
      · exact h ▸ hx
      · have hn' : n ≤ countLeadingGlue rest := by
          have := hn
          simp only [countLeadingGlue, if_pos hx] at this
          omega
        exact mem_take_countLeadingGlue hn' r h

/-- Claim C10 — Shape of `getUsersAtRisk` output: after any sequence of
`recordVote` calls and for `1 ≤ threshold ≤ 30`, every inner sequence has
length exactly `threshold`, consists solely of glue votes, and all its
records carry the same user id — so `history[0]` and `history.length` are
safe for the alert renderer. -/
theorem atRisk_shape (ops : List VoteOp) (t : Nat) (_h1 : 1 ≤ t)
    (h2 : t ≤ 30) :
    ∀ h ∈ getUsersAtRisk (runVotes ops) t,
      h.length = t ∧ (∀ r ∈ h, r.mood = Mood.glue) ∧
      (∀ r ∈ h, ∀ r' ∈ h, r.odUserId = r'.odUserId) := by
  have hinv : KvInv (runVotes ops) := kvInv_runVotes ops
  intro h hh
  rcases List.mem_map.mp hh with ⟨u, hu, rfl⟩
  have ht : t ≤ getConsecutiveGlueCount (runVotes ops) u :=
    of_decide_eq_true (List.mem_filter.mp hu).2
  refine ⟨?_, ?_, ?_⟩
  · have hcount : getConsecutiveGlueCount (runVotes ops) u
        ≤ (userRecords (runVotes ops) u).length := by
      calc getConsecutiveGlueCount (runVotes ops) u
          ≤ (getUserHistory (runVotes ops) u 30).length :=
            countLeadingGlue_le_length _
        _ ≤ (userRecords (runVotes ops) u).length := by
            unfold getUserHistory
            rw [List.length_take, List.length_insertionSort]
            exact Nat.min_le_right _ _
    unfold getUserHistory
    rw [List.length_take, List.length_insertionSort]
    exact Nat.min_eq_left (Nat.le_trans ht hcount)
  · intro r hr
    have h30 : getUserHistory (runVotes ops) u t
        = (getUserHistory (runVotes ops) u 30).take t := by
      unfold getUserHistory
      rw [List.take_take, Nat.min_eq_left h2]
    rw [h30] at hr
    exact mem_take_countLeadingGlue ht r hr
  · intro r hr r' hr'
    rw [getUserHistory_odUserId hinv hr, getUserHistory_odUserId hinv hr']

/-- Witness for C10: threshold 1 with a single one-day glue streak. -/
theorem atRisk_shape_witness :
    1 ≤ 1 ∧ (1 : Nat) ≤ 30 ∧
    (∀ h ∈ getUsersAtRisk (runVotes [⟨"u", "A", Mood.glue, 5, 0⟩]) 1,
      h.length = 1 ∧ (∀ r ∈ h, r.mood = Mood.glue) ∧
      (∀ r ∈ h, ∀ r' ∈ h, r.odUserId = r'.odUserId)) :=
  ⟨Nat.le_refl 1, by decide,
    atRisk_shape [⟨"u", "A", Mood.glue, 5, 0⟩] 1 (Nat.le_refl 1) (by decide)⟩

/-! ## `getStats` infrastructure -/

theorem bumpStats_date (m : Mood) (s : DailyStats) :
    (bumpStats m s).date = s.date := by
  cases m <;> rfl

theorem pairwise_lt_range' (s : Nat) :
    ∀ n, List.Pairwise (· < ·) (List.range' s n)
  | 0 => List.Pairwise.nil
  | n + 1 => by
      rw [List.range'_succ]
      exact List.chain_iff_pairwise.mp (List.chain_lt_range' s n Nat.zero_lt_one)

theorem dates_statsUpdate (d : Nat) (m : Mood) :
    ∀ sm : List (Nat × DailyStats),
    (statsUpdate d m sm).map (fun en => en.2.date)
      = sm.map (fun en => en.2.date)
  | [] => rfl
  | (k, s) :: rest => by
      by_cases h : k = d
      · simp [statsUpdate, h, bumpStats_date]
      · simp [statsUpdate, h, dates_statsUpdate d m rest]

theorem dates_statsStep (s e : Nat) (sm : List (Nat × DailyStats))
    (en : (Nat × String) × VoteRecord) :
    (statsStep s e sm en).map (fun x => x.2.date)
      = sm.map (fun x => x.2.date) := by
  unfold statsStep
  split
  · exact dates_statsUpdate _ _ sm
  · rfl

theorem dates_foldl_statsStep (s e : Nat) :
    ∀ (vs : List ((Nat × String) × VoteRecord))
      (sm : List (Nat × DailyStats)),
    (vs.foldl (statsStep s e) sm).map (fun x => x.2.date)
      = sm.map (fun x => x.2.date)
  | [], _ => rfl
  | en :: vs, sm => by
      rw [List.foldl_cons, dates_foldl_statsStep s e vs, dates_statsStep]

theorem initStats_dates (s e : Nat) :
    (initStats s e).map (fun x => x.2.date)
      = List.range' s (e + 1 - s) := by
  unfold initStats
  rw [List.map_map]
  exact List.map_id _

theorem filled_dates (kv : Kv) (s e : Nat) :
    ((kv.votes.foldl (statsStep s e) (initStats s e)).map (·.2)).map
        (fun st => st.date)
      = List.range' s (e + 1 - s) := by
  rw [List.map_map]
  show (kv.votes.foldl (statsStep s e) (initStats s e)).map
      (fun x => x.2.date) = _
  rw [dates_foldl_statsStep, initStats_dates]

theorem filled_sorted (kv : Kv) (s e : Nat) :
    List.Sorted dateAsc
      ((kv.votes.foldl (statsStep s e) (initStats s e)).map (·.2)) := by
  have hlt : List.Pairwise (· < ·) (List.range' s (e + 1 - s)) :=
    pairwise_lt_range' s _
  rw [← filled_dates kv s e] at hlt
  exact (List.pairwise_map.mp hlt).imp (fun hab => Nat.le_of_lt hab)

/-- The final sort of `getStats` is the identity: the stats map is built in
ascending day order and updates do not touch keys or dates. -/
theorem getStats_eq_filled (kv : Kv) (s e : Nat) :
    getStats kv s e
      = (kv.votes.foldl (statsStep s e) (initStats s e)).map (·.2) := by
  unfold getStats
  exact List.Sorted.insertionSort_eq (filled_sorted kv s e)

theorem kvLookup_statsUpdate_self (d : Nat) (m : Mood) :
    ∀ sm : List (Nat × DailyStats),
    kvLookup d (statsUpdate d m sm) = (kvLookup d sm).map (bumpStats m)
  | [] => rfl
  | (k, s) :: rest => by
      by_cases h : k = d
      · subst h
        simp [statsUpdate, kvLookup]
      · simp [statsUpdate, kvLookup, h, Ne.symm h,
          kvLookup_statsUpdate_self d m rest]

theorem kvLookup_statsUpdate_ne (d d' : Nat) (m : Mood) (h : d' ≠ d) :
    ∀ sm : List (Nat × DailyStats),
    kvLookup d' (statsUpdate d m sm) = kvLookup d' sm
  | [] => rfl
  | (k, s) :: rest => by
      by_cases hk : k = d
      · subst hk
        simp [statsUpdate, kvLookup, h]
      · by_cases hk' : d' = k
        · simp [statsUpdate, kvLookup, hk, hk']
        · simp [statsUpdate, kvLookup, hk, hk',
            kvLookup_statsUpdate_ne d d' m h rest]

/-- The accumulated effect on one day's entry of aggregating a list of
vote entries: bump once per entry of that day. -/
def bumpRun (vs : List ((Nat × String) × VoteRecord)) (d : Nat)
    (st : DailyStats) : DailyStats :=
  ((vs.filter (fun en => en.2.date == d)).map (fun en => en.2.mood)).foldl
    (fun acc m => bumpStats m acc) st

theorem kvLookup_foldl_statsStep (s e d : Nat) (hs : s ≤ d) (he : d ≤ e) :
    ∀ (vs : List ((Nat × String) × VoteRecord))
      (sm : List (Nat × DailyStats)),
    kvLookup d (vs.foldl (statsStep s e) sm)
      = (kvLookup d sm).map (bumpRun vs d)
  | [], sm => by cases h : kvLookup d sm <;> simp [bumpRun, h]
  | en :: vs, sm => by
      rw [List.foldl_cons, kvLookup_foldl_statsStep s e d hs he vs]
      by_cases hd : en.2.date = d
      · have hr : statsStep s e sm en = statsUpdate d en.2.mood sm := by
          unfold statsStep
          rw [if_pos ⟨by omega, by omega⟩, hd]
        rw [hr, kvLookup_statsUpdate_self, Option.map_map]
        have hf : bumpRun vs d ∘ bumpStats en.2.mood
            = bumpRun (en :: vs) d := by
          funext st
          show bumpRun vs d (bumpStats en.2.mood st) = bumpRun (en :: vs) d st
          unfold bumpRun
          rw [List.filter_cons_of_pos (by simpa using hd), List.map_cons,
            List.foldl_cons]
        rw [hf]
      · have hr : kvLookup d (statsStep s e sm en) = kvLookup d sm := by
          unfold statsStep
          split
          · exact kvLookup_statsUpdate_ne _ _ _ (fun hc => hd hc.symm) sm
          · rfl
        rw [hr]
        have hf : bumpRun vs d = bumpRun (en :: vs) d := by
          funext st
          unfold bumpRun
          rw [List.filter_cons_of_neg (by simpa using hd)]
        rw [hf]

theorem kvLookup_map_of_mem (g : Nat → DailyStats) :
    ∀ (dl : List Nat) (d : Nat), d ∈ dl →
    kvLookup d (dl.map (fun x => (x, g x))) = some (g d)
  | [], d, h => absurd h (List.not_mem_nil d)
  | x :: dl, d, h => by
      by_cases hx : d = x
      · subst hx
        simp [kvLookup]
      · rcases List.mem_cons.mp h with h1 | h1
        · exact absurd h1 hx
        · simp [kvLookup, hx, kvLookup_map_of_mem g dl d h1]

theorem kvLookup_initStats (s e d : Nat) (hs : s ≤ d) (he : d ≤ e) :
    kvLookup d (initStats s e)
      = some { date := d, umazing := 0, ok := 0, glue := 0, total := 0 } := by
  have hmem : d ∈ List.range' s (e + 1 - s) := by
    rw [List.mem_range'_1]
    omega
  unfold initStats
  exact kvLookup_map_of_mem _ _ d hmem

theorem foldl_bumpStats_counts : ∀ (ms : List Mood) (st : DailyStats),
    ms.foldl (fun acc m => bumpStats m acc) st
      = { date := st.date, umazing := st.umazing + ms.count Mood.umazing,
          ok := st.ok + ms.count Mood.ok,
          glue := st.glue + ms.count Mood.glue,
          total := st.total + ms.length }
  | [], st => by simp
  | m :: ms, st => by
      rw [List.foldl_cons, foldl_bumpStats_counts ms]
      cases m <;>
        simp [bumpStats, List.count_cons, DailyStats.mk.injEq] <;> omega

/-- The number of stored vote entries with the given date and mood. -/
def moodCountOn (kv : Kv) (d : Nat) (m : Mood) : Nat :=
  kv.votes.countP (fun en => en.2.mood == m && en.2.date == d)

theorem count_mood_filter (kv : Kv) (d : Nat) (m : Mood) :
    ((kv.votes.filter (fun en => en.2.date == d)).map
        (fun en => en.2.mood)).count m
      = moodCountOn kv d m := by
  unfold moodCountOn
  rw [List.count_eq_countP, List.countP_map, List.countP_filter]
  rfl

theorem countP_date_mood_split
    (l : List ((Nat × String) × VoteRecord)) (d : Nat) :
    l.countP (fun en => en.2.date == d)
      = l.countP (fun en => en.2.mood == Mood.umazing && en.2.date == d)
        + l.countP (fun en => en.2.mood == Mood.ok && en.2.date == d)
        + l.countP (fun en => en.2.mood == Mood.glue && en.2.date == d) := by
  induction l with
  | nil => rfl
  | cons en rest ih =>
      by_cases hd : en.2.date = d
      · cases hm : en.2.mood <;>
          simp [List.countP_cons, hd, hm, ih] <;> omega
      · simp [List.countP_cons, hd, ih]

theorem length_filter_date (kv : Kv) (d : Nat) :
    ((kv.votes.filter (fun en => en.2.date == d)).map
        (fun en => en.2.mood)).length
      = moodCountOn kv d Mood.umazing + moodCountOn kv d Mood.ok
        + moodCountOn kv d Mood.glue := by
  rw [List.length_map, ← List.countP_eq_length_filter,
    countP_date_mood_split]
  rfl

/-- The day-`d` entry of the aggregated stats map holds exactly the per-mood
counts of the stored votes of day `d`. -/
theorem getStats_lookup (kv : Kv) (s e d : Nat) (hs : s ≤ d) (he : d ≤ e) :
    kvLookup d (kv.votes.foldl (statsStep s e) (initStats s e))
      = some { date := d, umazing := moodCountOn kv d Mood.umazing,
               ok := moodCountOn kv d Mood.ok,
               glue := moodCountOn kv d Mood.glue,
               total := (moodCountOn kv d Mood.umazing +
                 moodCountOn kv d Mood.ok +
                 moodCountOn kv d Mood.glue) } := by
  rw [kvLookup_foldl_statsStep s e d hs he, kvLookup_initStats s e d hs he]
  show some (bumpRun kv.votes d
    { date := d, umazing := 0, ok := 0, glue := 0, total := 0 }) = _
  unfold bumpRun
  rw [foldl_bumpStats_counts]
  rw [count_mood_filter, count_mood_filter, count_mood_filter,
    length_filter_date]
  simp

theorem find?_eq_some_of_unique {α : Type} (p : α → Bool) :
    ∀ (l : List α) (x : α), x ∈ l → p x = true →
    (∀ y ∈ l, p y = true → y = x) → l.find? p = some x
  | [], x, hx, _, _ => absurd hx (List.not_mem_nil x)
  | a :: rest, x, hx, hpx, huniq => by
      by_cases hpa : p a = true
      · rw [List.find?_cons_of_pos rest hpa]
        rw [huniq a (List.mem_cons_self _ _) hpa]
      · rw [List.find?_cons_of_neg rest hpa]
        have hx' : x ∈ rest := by
          rcases List.mem_cons.mp hx with h | h
          · rw [h] at hpx
            exact absurd hpx hpa
          · exact h
        exact find?_eq_some_of_unique p rest x hx' hpx
          (fun y hy => huniq y (List.mem_cons_of_mem _ hy))

theorem countP_congr_mem {α : Type} (p q : α → Bool) :
    ∀ l : List α, (∀ a ∈ l, p a = q a) → l.countP p = l.countP q
  | [], _ => rfl
  | a :: l, h => by
      rw [List.countP_cons, List.countP_cons,
        h a (List.mem_cons_self _ _),
        countP_congr_mem p q l (fun b hb => h b (List.mem_cons_of_mem _ hb))]

/-- On reachable stores, the per-mood count over `getVotesForDate d` agrees
with the per-mood count over the raw `votes` entries of day `d`. -/
theorem getVotesForDate_countP_mood {kv : Kv} (hinv : KvInv kv) (d : Nat)
    (m : Mood) :
    (getVotesForDate kv d).countP (fun r => r.mood == m)
      = moodCountOn kv d m := by
  unfold getVotesForDate moodCountOn
  rw [List.countP_map, List.countP_filter]
  refine countP_congr_mem _ _ kv.votes (fun en hen => ?_)
  have hk : en.1.1 = en.2.date :=
    congrArg Prod.fst (hinv.votes_keys en hen)
  show (en.2.mood == m && en.1.1 == d) = (en.2.mood == m && en.2.date == d)
  rw [hk]

/-- Claim C7 — Zero-fill and range shape of `getStats`: the returned dates are
exactly the inclusive day range in ascending order (one entry per day), the
result is empty when `startDate > endDate`, and a day in range with no
votes carries an all-zero entry. -/
theorem stats_shape (kv : Kv) (s e : Nat) :
    (getStats kv s e).map (fun st => st.date)
      = List.range' s (e + 1 - s) ∧
    (e < s → getStats kv s e = []) ∧
    (∀ d, s ≤ d → d ≤ e → (∀ en ∈ kv.votes, en.2.date ≠ d) →
      DailyStats.mk d 0 0 0 0 ∈ getStats kv s e) := by
  refine ⟨?_, ?_, ?_⟩
  · rw [getStats_eq_filled]
    exact filled_dates kv s e
  · intro hlt
    have h1 : (getStats kv s e).map (fun st => st.date) = [] := by
      rw [getStats_eq_filled, filled_dates]
      have h0 : e + 1 - s = 0 := by omega
      rw [h0]
      rfl
    exact List.map_eq_nil_iff.mp h1
  · intro d hs he hnone
    have hz : ∀ m : Mood, moodCountOn kv d m = 0 := by
      intro m
      unfold moodCountOn
      rw [List.countP_eq_zero]
      intro en hen hbe
      simp only [Bool.and_eq_true, beq_iff_eq] at hbe
      exact (hnone en hen) hbe.2
    have hlk := getStats_lookup kv s e d hs he
    rw [hz Mood.umazing, hz Mood.ok, hz Mood.glue] at hlk
    rw [getStats_eq_filled]
    exact List.mem_map.mpr ⟨_, kvLookup_eq_some_mem hlk, rfl⟩

/-- Witness for C7: the empty store over the range 1..3, with day 2 having
no votes. -/
theorem stats_shape_witness :
    (getStats Kv.empty 1 3).map (fun st => st.date)
      = List.range' 1 (3 + 1 - 1) ∧
    (3 < 1 → getStats Kv.empty 1 3 = []) ∧
    (∀ d, 1 ≤ d → d ≤ 3 → (∀ en ∈ Kv.empty.votes, en.2.date ≠ d) →
      DailyStats.mk d 0 0 0 0 ∈ getStats Kv.empty 1 3) :=
  stats_shape Kv.empty 1 3

/-- Claim C8 — Aggregation correctness of `getStats`: after any sequence of
`recordVote` calls and for any day `d` in the requested range, the entry
for `d` counts exactly the stored votes of that day per mood, with
`total = umazing + ok + glue`. -/
theorem stats_aggregation (ops : List VoteOp) (s e d : Nat)
    (hs : s ≤ d) (he : d ≤ e) :
    (getStats (runVotes ops) s e).find? (fun st => st.date == d)
      = some { date := d,
               umazing := (getVotesForDate (runVotes ops) d).countP
                 (fun r => r.mood == Mood.umazing),
               ok := (getVotesForDate (runVotes ops) d).countP
                 (fun r => r.mood == Mood.ok),
               glue := (getVotesForDate (runVotes ops) d).countP
                 (fun r => r.mood == Mood.glue),
               total := ((getVotesForDate (runVotes ops) d).countP
                   (fun r => r.mood == Mood.umazing) +
                 (getVotesForDate (runVotes ops) d).countP
                   (fun r => r.mood == Mood.ok) +
                 (getVotesForDate (runVotes ops) d).countP
                   (fun r => r.mood == Mood.glue)) } := by
  have hinv := kvInv_runVotes ops
  rw [getVotesForDate_countP_mood hinv, getVotesForDate_countP_mood hinv,
    getVotesForDate_countP_mood hinv]
  have hlk := getStats_lookup (runVotes ops) s e d hs he
  have hmem : DailyStats.mk d (moodCountOn (runVotes ops) d Mood.umazing)
      (moodCountOn (runVotes ops) d Mood.ok)
      (moodCountOn (runVotes ops) d Mood.glue)
      (moodCountOn (runVotes ops) d Mood.umazing +
        moodCountOn (runVotes ops) d Mood.ok +
        moodCountOn (runVotes ops) d Mood.glue)
      ∈ getStats (runVotes ops) s e := by
    rw [getStats_eq_filled]
    exact List.mem_map.mpr ⟨_, kvLookup_eq_some_mem hlk, rfl⟩
  have hnd : ((getStats (runVotes ops) s e).map
      (fun st => st.date)).Nodup := by
    rw [getStats_eq_filled, filled_dates]
    exact List.nodup_range' s _
  refine find?_eq_some_of_unique _ _ _ hmem (by simp) ?_
  intro y hy hpy
  have hyd : y.date = d := by simpa using hpy
  exact List.inj_on_of_nodup_map hnd hy hmem (by simpa using hyd)

/-- Witness for C8: the spec's own example — four distinct users voting
umazing, umazing, ok, glue on one day. -/
theorem stats_aggregation_witness :
    (1 : Nat) ≤ 10 ∧ (10 : Nat) ≤ 12 ∧
    (getStats (runVotes [⟨"u1", "Alice", Mood.umazing, 10, 0⟩,
        ⟨"u2", "Bob", Mood.umazing, 10, 0⟩, ⟨"u3", "Charlie", Mood.ok, 10, 0⟩,
        ⟨"u4", "Diana", Mood.glue, 10, 0⟩]) 1 12).find?
        (fun st => st.date == 10)
      = some { date := 10,
               umazing := (getVotesForDate (runVotes
                   [⟨"u1", "Alice", Mood.umazing, 10, 0⟩,
                    ⟨"u2", "Bob", Mood.umazing, 10, 0⟩,
                    ⟨"u3", "Charlie", Mood.ok, 10, 0⟩,
                    ⟨"u4", "Diana", Mood.glue, 10, 0⟩]) 10).countP
                 (fun r => r.mood == Mood.umazing),
               ok := (getVotesForDate (runVotes
                   [⟨"u1", "Alice", Mood.umazing, 10, 0⟩,
                    ⟨"u2", "Bob", Mood.umazing, 10, 0⟩,
                    ⟨"u3", "Charlie", Mood.ok, 10, 0⟩,
                    ⟨"u4", "Diana", Mood.glue, 10, 0⟩]) 10).countP
                 (fun r => r.mood == Mood.ok),
               glue := (getVotesForDate (runVotes
                   [⟨"u1", "Alice", Mood.umazing, 10, 0⟩,
                    ⟨"u2", "Bob", Mood.umazing, 10, 0⟩,
                    ⟨"u3", "Charlie", Mood.ok, 10, 0⟩,
                    ⟨"u4", "Diana", Mood.glue, 10, 0⟩]) 10).countP
                 (fun r => r.mood == Mood.glue),
               total := ((getVotesForDate (runVotes
                     [⟨"u1", "Alice", Mood.umazing, 10, 0⟩,
                      ⟨"u2", "Bob", Mood.umazing, 10, 0⟩,
                      ⟨"u3", "Charlie", Mood.ok, 10, 0⟩,
                      ⟨"u4", "Diana", Mood.glue, 10, 0⟩]) 10).countP
                   (fun r => r.mood == Mood.umazing) +
                 (getVotesForDate (runVotes
                     [⟨"u1", "Alice", Mood.umazing, 10, 0⟩,
                      ⟨"u2", "Bob", Mood.umazing, 10, 0⟩,
                      ⟨"u3", "Charlie", Mood.ok, 10, 0⟩,
                      ⟨"u4", "Diana", Mood.glue, 10, 0⟩]) 10).countP
                   (fun r => r.mood == Mood.ok) +
                 (getVotesForDate (runVotes
                     [⟨"u1", "Alice", Mood.umazing, 10, 0⟩,
                      ⟨"u2", "Bob", Mood.umazing, 10, 0⟩,
                      ⟨"u3", "Charlie", Mood.ok, 10, 0⟩,
                      ⟨"u4", "Diana", Mood.glue, 10, 0⟩]) 10).countP
                   (fun r => r.mood == Mood.glue)) } :=
  ⟨by decide, by decide,
    stats_aggregation [⟨"u1", "Alice", Mood.umazing, 10, 0⟩,
      ⟨"u2", "Bob", Mood.umazing, 10, 0⟩, ⟨"u3", "Charlie", Mood.ok, 10, 0⟩,
      ⟨"u4", "Diana", Mood.glue, 10, 0⟩] 1 12 10 (by decide) (by decide)⟩

/-- Error kinds of the spec's error taxonomy. -/
inductive VoteError : Type
  | invalidArgument : VoteError
  | storageUnavailable : VoteError
deriving DecidableEq, Repr

/-- Modelled from the spec: parsing the `mood` input; only the three
enumerated values are valid. -/
def moodOfString (s : String) : Option Mood :=
  if s = "umazing" then some Mood.umazing
  else if s = "ok" then some Mood.ok
  else if s = "glue" then some Mood.glue
  else none

def isDigitChar (c : Char) : Bool := '0' ≤ c && c ≤ '9'

/-- Modelled from the spec: well-formedness of the ISO `YYYY-MM-DD` date
input — ten characters, digits and dashes in place, month 01–12, day
01–31. -/
def isValidDateStr (s : String) : Bool :=
  match s.toList with
  | [y1, y2, y3, y4, h1, m1, m2, h2, d1, d2] =>
      isDigitChar y1 && isDigitChar y2 && isDigitChar y3 && isDigitChar y4 &&
      h1 == '-' && h2 == '-' &&
      isDigitChar m1 && isDigitChar m2 && isDigitChar d1 && isDigitChar d2 &&
      decide (1 ≤ (m1.toNat - 48) * 10 + (m2.toNat - 48)) &&
      decide ((m1.toNat - 48) * 10 + (m2.toNat - 48) ≤ 12) &&
      decide (1 ≤ (d1.toNat - 48) * 10 + (d2.toNat - 48)) &&
      decide ((d1.toNat - 48) * 10 + (d2.toNat - 48) ≤ 31)
  | _ => false

/-- Modelled from the spec: the day ordinal of a well-formed date string,
monotone with respect to the lexicographic `YYYY-MM-DD` order (the order
the storage engine relies on). -/
def dateOrdinal (s : String) : Nat :=
  match s.toList with
  | [y1, y2, y3, y4, _, m1, m2, _, d1, d2] =>
      (((y1.toNat - 48) * 1000 + (y2.toNat - 48) * 100 +
        (y3.toNat - 48) * 10 + (y4.toNat - 48)) * 372)
      + ((m1.toNat - 48) * 10 + (m2.toNat - 48) - 1) * 31
      + ((d1.toNat - 48) * 10 + (d2.toNat - 48) - 1)
  | _ => 0

/-- Modelled from the spec: the validation layer the spec requires of a
faithful reimplementation in front of `recordVote` (it is absent from the
repository's storage service itself) — an invalid `mood`, a malformed
`date`, or an empty `userId`/`userName` is rejected with an
`InvalidArgument` error before anything reaches storage; valid input is
stored via `recordVote`. -/
def recordVoteChecked (userId userName moodStr dateStr : String)
    (now : Nat) (kv : Kv) : Except VoteError Kv :=
  if userId = "" then Except.error VoteError.invalidArgument
  else if userName = "" then Except.error VoteError.invalidArgument
  else
    match moodOfString moodStr with
    | none => Except.error VoteError.invalidArgument
    | some m =>
        if isValidDateStr dateStr then
          Except.ok
            (recordVote userId userName m (dateOrdinal dateStr) now kv)
        else Except.error VoteError.invalidArgument

/-- Claim C9 — Input validation: a call with an invalid mood, a malformed date,
or an empty userId/userName is rejected with the `InvalidArgument` error
kind, and no store state is produced (nothing is persisted under either
index). -/
theorem recordVote_validation (userId userName moodStr dateStr : String)
    (now : Nat) (kv : Kv)
    (h : userId = "" ∨ userName = "" ∨ moodOfString moodStr = none ∨
      isValidDateStr dateStr = false) :
    recordVoteChecked userId userName moodStr dateStr now kv
      = Except.error VoteError.invalidArgument ∧
    ∀ kv' : Kv, recordVoteChecked userId userName moodStr dateStr now kv
      ≠ Except.ok kv' := by
  have hmain : recordVoteChecked userId userName moodStr dateStr now kv
      = Except.error VoteError.invalidArgument := by
    unfold recordVoteChecked
    by_cases h0 : userId = ""
    · rw [if_pos h0]
    · rw [if_neg h0]
      by_cases h1 : userName = ""
      · rw [if_pos h1]
      · rw [if_neg h1]
        rcases h with h | h | h | h
        · exact absurd h h0
        · exact absurd h h1
        · rw [h]
        · cases hm : moodOfString moodStr with
          | none => rfl
          | some m =>
              rw [h]
              rfl
  exact ⟨hmain, fun kv' hc => by
    rw [hmain] at hc
    exact Except.noConfusion hc⟩

/-- Witness for C9: the invalid mood string is rejected and nothing is
stored. -/
theorem recordVote_validation_witness :
    ("u1" = "" ∨ "Alice" = "" ∨ moodOfString "happy" = none ∨
      isValidDateStr "2025-12-10" = false) ∧
    recordVoteChecked "u1" "Alice" "happy" "2025-12-10" 0 Kv.empty
      = Except.error VoteError.invalidArgument ∧
    (∀ kv' : Kv,
      recordVoteChecked "u1" "Alice" "happy" "2025-12-10" 0 Kv.empty
        ≠ Except.ok kv') := by
  have hv : moodOfString "happy" = none := by decide
  refine ⟨Or.inr (Or.inr (Or.inl hv)), ?_, ?_⟩
  · exact (recordVote_validation "u1" "Alice" "happy" "2025-12-10" 0
      Kv.empty (Or.inr (Or.inr (Or.inl hv)))).1
  · exact (recordVote_validation "u1" "Alice" "happy" "2025-12-10" 0
      Kv.empty (Or.inr (Or.inr (Or.inl hv)))).2
